import Mathlib

/-!
Verification of the recipient-processing and message-construction pipeline of
`send_email.py`: email validation, template rendering, deduplication, consent
gating, MIME assembly with best-effort attachments, EML persistence and
rate-limited dispatch. Python functions are shallowly embedded as executable
Lean definitions; exceptions become `Except`, the file system and the SMTP
transport become explicit oracles.
-/

namespace SendEmail

/-! ### String helpers (Python string semantics) -/

/-- The characters Python's `\s` (and `str.strip()`) treats as whitespace,
restricted to the ASCII range used throughout this development. -/
def pyIsSpace (c : Char) : Bool :=
  c = ' ' || c = '\t' || c = '\n' || c = '\r' || c = '\x0b' || c = '\x0c'

/-- Python `str.strip()` on a character list: drop whitespace at both ends. -/
def pyStripList (cs : List Char) : List Char :=
  ((cs.dropWhile pyIsSpace).reverse.dropWhile pyIsSpace).reverse

/-- Python `str.strip()`. -/
def pyStrip (s : String) : String :=
  String.mk (pyStripList s.data)

/-- ASCII lowercasing of one character, as `str.lower()` acts on ASCII. -/
def pyLowerChar (c : Char) : Char :=
  if 'A' ≤ c ∧ c ≤ 'Z' then Char.ofNat (c.toNat + 32) else c

/-- Python `str.lower()` (ASCII fragment; the affirmative consent tokens the
code compares against are all ASCII, so this is observationally faithful). -/
def pyLower (s : String) : String :=
  String.mk (s.data.map pyLowerChar)

/-! ### Validator: `is_valid_email` (send_email.py lines 48-51)

The source matches the address against the regular expression
`^[^@\s]+@[^@\s]+\.[^@\s]+$` with `re.match`.  `tokenChar` is the character
class `[^@\s]`; the `$` anchor in Python also matches just before one
trailing newline, which `pyDollarStrip` accounts for. -/

/-- The regex character class `[^@\s]`. -/
def tokenChar (c : Char) : Bool :=
  !(c = '@') && !(pyIsSpace c)

/-- Python's `$` anchor allows the match to stop just before a single
trailing newline; stripping it reduces matching to end-of-string. -/
def pyDollarStrip (cs : List Char) : List Char :=
  if cs.getLast? = some '\n' then cs.dropLast else cs

/-- Matcher for `^[^@\s]+@[^@\s]+\.[^@\s]+$` against a full string: a
nonempty run of token characters, `@`, then a domain of token characters
containing a `.` that is neither its first nor its last character. -/
def matchEmailCore (cs : List Char) : Bool :=
  match cs.splitOn '@' with
  | [l, d] =>
      !l.isEmpty && l.all tokenChar && !d.isEmpty && d.all tokenChar &&
        ((d.drop 1).dropLast.contains '.')
  | _ => false

/-- `is_valid_email(address)`: `False` on the empty (falsy) string, else the
result of `re.match(r"^[^@\s]+@[^@\s]+\.[^@\s]+$", address)`. -/
def is_valid_email (address : String) : Bool :=
  if address = "" then false
  else matchEmailCore (pyDollarStrip address.data)

/-- The validity predicate exactly as the spec words it: nonempty and not
whitespace-only, exactly one `@`, no whitespace anywhere, and a `.`
somewhere in the part after the `@`.  Stated only to be compared against
`is_valid_email`. -/
def specValidEmail (address : String) : Bool :=
  let cs := address.data
  if cs.isEmpty || cs.all pyIsSpace then false
  else
    (cs.count '@' = 1) && cs.all (fun c => !(pyIsSpace c)) &&
      ((cs.dropWhile (fun c => !(c = '@'))).drop 1).contains '.'

/-! ### TemplateRenderer: `render_template` (send_email.py lines 39-45)

The source calls `template_str.format(**variables)` and turns a `KeyError`
(missing template variable) into a logged fatal exit; any other exception
(`ValueError` on a malformed format string, `IndexError` on a positional
field) escapes uncaught.  Both are embedded as `Except` errors, kept
distinct.  The repository's templates use only plain `{name}`-style fields;
attribute/index fields are mapped to `formatError` and a format spec after
`:`/`!` is applied as the identity (specs never change which key is looked
up or whether a `KeyError` is raised, which is all the claims depend on). -/

/-- Errors of the embedded `str.format`: a missing keyword (Python
`KeyError`, caught and fatal in `render_template`) or any other format
failure (Python `ValueError`/`IndexError`, uncaught). -/
inductive RTErr where
  | missingVariable (key : String)
  | formatError
deriving DecidableEq, Repr

/-- Substitution for one replacement field (the text between `{` and `}`):
look the key up in the variables, failing like `str.format` does. -/
def substField (vars : String → Option String) (field : List Char) : Except RTErr (List Char) :=
  let key := field.takeWhile (fun c => !(c = ':' || c = '!'))
  if key.any (fun c => c = '.' || c = '[') then .error .formatError
  else if key.isEmpty || key.all Char.isDigit then .error .formatError
  else
    match vars (String.mk key) with
    | none => .error (.missingVariable (String.mk key))
    | some v => .ok v.data

/-- Scanner for `str.format`: `mode = none` is ordinary text (where `{{` and
`}}` are escapes and `{` opens a field), `mode = some acc` is inside a
replacement field collecting its characters until the closing brace. -/
def fmtGo (vars : String → Option String) : Option (List Char) → List Char → Except RTErr (List Char)
  | none, [] => .ok []
  | some _, [] => .error .formatError
  | some acc, c :: rest =>
      if c = '}' then
        match substField vars acc.reverse with
        | .error e => .error e
        | .ok v =>
            match fmtGo vars none rest with
            | .error e => .error e
            | .ok r => .ok (v ++ r)
      else fmtGo vars (some (c :: acc)) rest
  | none, '{' :: '{' :: rest =>
      match fmtGo vars none rest with
      | .error e => .error e
      | .ok r => .ok ('{' :: r)
  | none, '}' :: '}' :: rest =>
      match fmtGo vars none rest with
      | .error e => .error e
      | .ok r => .ok ('}' :: r)
  | none, '{' :: rest => fmtGo vars (some []) rest
  | none, '}' :: _ => .error .formatError
  | none, c :: rest =>
      match fmtGo vars none rest with
      | .error e => .error e
      | .ok r => .ok (c :: r)

/-- `render_template(template_str, variables)`: `template_str.format(**variables)`
with `KeyError` made a fatal error naming the missing key. -/
def render_template (template_str : String) (vars : String → Option String) :
    Except RTErr String :=
  match fmtGo vars none template_str.data with
  | .error e => .error e
  | .ok r => .ok (String.mk r)

/-! ### ResourceAttacher and MessageBuilder (send_email.py lines 54-147)

File reads are embedded through an explicit file-system oracle.  A read
either yields the file's bytes, fails with `FileNotFoundError`, or fails
with any other I/O error — the two failure branches the source catches
separately (warning vs. error log), both producing no MIME part. -/

/-- Result of opening and reading one file. -/
inductive ReadResult where
  | ok (data : List Nat)
  | fileNotFound
  | ioError
deriving DecidableEq

/-- The file system as seen through `open(path, "rb").read()`. -/
def FileSystem := String → ReadResult

/-- `os.path.basename` (POSIX): the component after the last `/`. -/
def basename (p : String) : String :=
  ((p.splitOn "/").getLast?).getD p

/-- Model of the system MIME-type database consulted by
`mimetypes.guess_type` (an external collaborator), keyed by lowercased
file extension. -/
def mimeTable : List (String × String × String) :=
  [(".png", "image", "png"), (".jpg", "image", "jpeg"), (".jpeg", "image", "jpeg"),
   (".gif", "image", "gif"), (".txt", "text", "plain"), (".html", "text", "html"),
   (".pdf", "application", "pdf"), (".zip", "application", "zip")]

/-- The extension (from the last `.`) of a path's base name. -/
def fileExt (p : String) : String :=
  let parts := (basename p).splitOn "."
  if parts.length ≤ 1 then "" else "." ++ (parts.getLast?).getD ""

/-- `guess_mime_type(path)`: `(maintype, subtype)` from the extension,
defaulting to `application/octet-stream`. -/
def guess_mime_type (path : String) : String × String :=
  match mimeTable.lookup (pyLower (fileExt path)) with
  | some ms => ms
  | none => ("application", "octet-stream")

/-- One MIME part attached to a message. -/
structure MimePart where
  filename : String
  maintype : String
  subtype : String
  payload : List Nat
  disposition : String
  contentId : Option String
deriving DecidableEq

/-- `attach_regular(msg, path)`: on a successful read, append one
attachment part; on `FileNotFoundError` or any other error, log and leave
the message unchanged (no part produced, nothing raised). -/
def attach_regular (fs : FileSystem) (parts : List MimePart) (path : String) :
    List MimePart :=
  match fs path with
  | .ok data =>
      let ms := guess_mime_type path
      parts ++ [⟨basename path, ms.1, ms.2, data, "attachment", none⟩]
  | .fileNotFound => parts
  | .ioError => parts

/-- `attach_inline(msg, path)`: like `attach_regular` but with an inline
disposition and the file's base name as content-ID, which is returned;
either failure returns the empty (falsy) content-ID and adds no part. -/
def attach_inline (fs : FileSystem) (parts : List MimePart) (path : String) :
    List MimePart × String :=
  match fs path with
  | .ok data =>
      let ms := guess_mime_type path
      let cid := basename path
      (parts ++ [⟨cid, ms.1, ms.2, data, "inline", some cid⟩], cid)
  | .fileNotFound => (parts, "")
  | .ioError => (parts, "")

/-- The composed message: headers, the text/HTML alternative bodies (only
non-empty bodies are attached), and the ordered MIME parts. -/
structure ComposedMessage where
  fromName : String
  fromAddr : String
  toAddr : String
  subject : String
  msgId : String
  replyTo : Option String
  unsubscribe : Option String
  textBody : Option String
  htmlBody : Option String
  parts : List MimePart
deriving DecidableEq

/-- The character class `[a-zA-Z0-9_.-]` kept by the EML file-name
sanitizer. -/
def safeChar (c : Char) : Bool :=
  ('a' ≤ c && c ≤ 'z') || ('A' ≤ c && c ≤ 'Z') || ('0' ≤ c && c ≤ '9') ||
    c = '_' || c = '.' || c = '-'

/-- `re.sub(r"[^a-zA-Z0-9_.-]", "_", s)`. -/
def sanitize (s : String) : String :=
  String.mk (s.data.map (fun c => if safeChar c then c else '_'))

/-- The saved EML file name: `f"{to_addr}_{int(time.time())}.eml"` passed
through the sanitizer. -/
def emlFilename (to_addr : String) (now : Nat) : String :=
  sanitize (to_addr ++ "_" ++ toString now ++ ".eml")

/-- One step of the inline-resource loop of `build_message` (lines
128-131): attach the resource and, when the returned content-ID is truthy,
record it in the content-ID map under the file's base name. -/
def inlineStep (fs : FileSystem) (st : List MimePart × List (String × String))
    (p : String) : List MimePart × List (String × String) :=
  let r := attach_inline fs st.1 p
  (r.1, if r.2 = "" then st.2 else st.2 ++ [(basename p, r.2)])

/-- `build_message(...)` (send_email.py lines 108-147): compose headers and
bodies, attach inline resources (collecting the content-ID map) then
regular attachments, and, when a save directory is configured, write the
serialized message to `emlFilename` — a write failure (`writeOk = false`)
is only logged.  Returns the message, the content-ID map, and the
attempted EML write (destination file name and whether it succeeded);
`now` is `time.time()`, `msgid` the fresh `make_msgid()` value. -/
def build_message (fs : FileSystem) (now : Nat) (msgid : String) (writeOk : Bool)
    (from_name from_addr to_addr subject text_body html_body : String)
    (inline_paths attach_paths : List String)
    (reply_to unsubscribe : String) (save_eml_dir : Option String) :
    ComposedMessage × List (String × String) × Option (String × Bool) :=
  let msg0 : ComposedMessage :=
    { fromName := from_name
      fromAddr := from_addr
      toAddr := to_addr
      subject := subject
      msgId := msgid
      replyTo := if reply_to = "" then none else some reply_to
      unsubscribe := if unsubscribe = "" then none else some unsubscribe
      textBody := if text_body = "" then none else some text_body
      htmlBody := if html_body = "" then none else some html_body
      parts := [] }
  let inl := inline_paths.foldl (inlineStep fs) (msg0.parts, [])
  let parts2 := attach_paths.foldl (attach_regular fs) inl.1
  let emlWrite :=
    match save_eml_dir with
    | none => none
    | some _ => some (emlFilename to_addr now, writeOk)
  ({ msg0 with parts := parts2 }, inl.2, emlWrite)

/-! ### DeliveryPipeline: `send_messages` (send_email.py lines 150-257)

The per-recipient loop.  A recipient record is the triple yielded by
`iter_recipients` (stripped email, stripped display name, raw CSV row —
empty for a single `--to` recipient).  The SMTP transport, the clock and
the EML writes are oracles supplied per iteration; rendering failures
(`sys.exit(1)`) surface as `Except.error`, aborting the whole run. -/

/-- The resolved configuration reaching the loop (flag/environment layering
already applied).  `csvMode` is the truthiness of `args.csv`,
`ratePerMinute` the optional `--rate-per-minute` float, modelled as `ℚ`. -/
structure Config where
  csvMode : Bool
  requireConsent : Bool
  consentField : String
  dryRun : Bool
  ratePerMinute : Option ℚ
  saveEmlDir : Option String
  templateText : String
  templateHtml : String
  fromName : String
  fromAddr : String
  subject : String
  replyTo : String
  unsubscribe : String
  inlinePaths : List String
  attachPaths : List String

/-- One recipient record as yielded by `iter_recipients`. -/
structure Record where
  email : String
  name : String
  row : List (String × String)

/-- `row.get(k, "")` on a CSV row. -/
def rowGet (row : List (String × String)) (k : String) : String :=
  ((row.find? (fun kv => kv.1 == k)).map (fun kv => kv.2)).getD ""

/-- The template variables for one recipient: base fields `name` (display
name, or the address when the name is empty/falsy) and `email`, then every
CSV column that does not collide with an existing key. -/
def mkVariables (email name : String) (row : List (String × String)) :
    List (String × String) :=
  row.foldl
    (fun acc kv => if acc.any (fun e => e.1 == kv.1) then acc else acc ++ [kv])
    [("name", if name = "" then email else name), ("email", email)]

/-- Keyword lookup into the variables mapping. -/
def varsFun (vs : List (String × String)) : String → Option String :=
  fun k => (vs.find? (fun kv => kv.1 == k)).map (fun kv => kv.2)

/-- `rate_delay` (lines 178-180): `60.0 / rate` when `--rate-per-minute` is
given, truthy and positive, else `0.0` (pacing disabled). -/
def rateDelay (cfg : Config) : ℚ :=
  match cfg.ratePerMinute with
  | some q => if 0 < q then 60 / q else 0
  | none => 0

/-- The consent-gate skip condition (lines 207-212): consent is required,
the source is CSV, and the consent column's value, stripped and lowered,
is not an affirmative token. -/
def consentSkips (cfg : Config) (row : List (String × String)) : Bool :=
  cfg.requireConsent &&
    (cfg.csvMode &&
      !(["1", "true", "yes", "y"].contains
          (pyLower (pyStrip (if row.isEmpty then "" else rowGet row cfg.consentField)))))

/-- Terminal outcome of one recipient. -/
inductive Outcome where
  | skippedInvalid
  | skippedDuplicate
  | skippedNoConsent
  | sentDry
  | sentLive
  | skippedSendFail
deriving DecidableEq, Repr

/-- Observable events of one loop iteration: the address, its outcome, the
EML write attempted by `build_message` (if any), and the rate-limit pause
taken after the dispatch (if any). -/
structure StepResult where
  email : String
  outcome : Outcome
  emlFile : Option (String × Bool)
  slept : Option ℚ
deriving DecidableEq

/-- The loop accumulator: the `total`/`sent`/`skipped` tally and the
`seen` set of already-processed addresses. -/
structure Tally where
  total : Nat
  sent : Nat
  skipped : Nat
  seen : List String
deriving DecidableEq

/-- Per-iteration external inputs: the transport verdict for
`smtp.send_message`, the clock, the fresh message-ID and the EML write
verdict. -/
structure Oracle where
  sendOk : Bool
  now : Nat
  msgid : String
  writeOk : Bool

/-- One iteration of the recipient loop (lines 196-249): count the record,
run the validation, dedup and consent gates, render both bodies (fatal on
a missing variable), build the message (which performs the EML write),
then dispatch — dry-run counts as sent; a live send failure is caught and
counted as skipped; a successful live send pauses `rateDelay` when
positive. -/
def processOne (cfg : Config) (fs : FileSystem) (o : Oracle) (st : Tally) (r : Record) :
    Except RTErr (Tally × StepResult) :=
  let st := { st with total := st.total + 1 }
  if !(is_valid_email r.email) then
    .ok ({ st with skipped := st.skipped + 1 }, ⟨r.email, .skippedInvalid, none, none⟩)
  else if st.seen.contains r.email then
    .ok ({ st with skipped := st.skipped + 1 }, ⟨r.email, .skippedDuplicate, none, none⟩)
  else
    let st := { st with seen := r.email :: st.seen }
    if consentSkips cfg r.row then
      .ok ({ st with skipped := st.skipped + 1 }, ⟨r.email, .skippedNoConsent, none, none⟩)
    else
      let vars := varsFun (mkVariables r.email r.name r.row)
      match (if cfg.templateText = "" then .ok "" else render_template cfg.templateText vars : Except RTErr String) with
      | .error e => .error e
      | .ok text_body =>
        match (if cfg.templateHtml = "" then .ok "" else render_template cfg.templateHtml vars : Except RTErr String) with
        | .error e => .error e
        | .ok html_body =>
          let b := build_message fs o.now o.msgid o.writeOk cfg.fromName cfg.fromAddr
            r.email cfg.subject text_body html_body cfg.inlinePaths cfg.attachPaths
            cfg.replyTo cfg.unsubscribe cfg.saveEmlDir
          if cfg.dryRun then
            .ok ({ st with sent := st.sent + 1 }, ⟨r.email, .sentDry, b.2.2, none⟩)
          else if o.sendOk then
            .ok ({ st with sent := st.sent + 1 },
              ⟨r.email, .sentLive, b.2.2,
                if 0 < rateDelay cfg then some (rateDelay cfg) else none⟩)
          else
            .ok ({ st with skipped := st.skipped + 1 }, ⟨r.email, .skippedSendFail, b.2.2, none⟩)

/-- The recipient loop over a list of records, threading the tally and
collecting one `StepResult` per processed record; `os i` supplies the
oracle of the `i`-th iteration. -/
def runAux (cfg : Config) (fs : FileSystem) (os : Nat → Oracle) (i : Nat) (st : Tally) :
    List Record → Except RTErr (Tally × List StepResult)
  | [] => .ok (st, [])
  | r :: rs =>
      match processOne cfg fs (os i) st r with
      | .error e => .error e
      | .ok (st1, step) =>
          match runAux cfg fs os (i + 1) st1 rs with
          | .error e => .error e
          | .ok (st2, steps) => .ok (st2, step :: steps)

/-- The empty tally the run starts from (lines 182-185). -/
def initTally : Tally := ⟨0, 0, 0, []⟩

/-- `send_messages` restricted to its recipient loop (lines 196-257): the
startup preamble (credentials, SMTP connect) and `iter_recipients` are
outside the loop; `records` is the sequence the source yields. -/
def send_messages (cfg : Config) (fs : FileSystem) (os : Nat → Oracle)
    (records : List Record) : Except RTErr (Tally × List StepResult) :=
  runAux cfg fs os 0 initTally records

/-! ## Theorems -/

/-! ### The validator -/

theorem not_mem_of_mem_splitOnAt (cs : List Char) :
    ∀ piece ∈ cs.splitOn '@', '@' ∉ piece := by
  induction cs with
  | nil =>
      intro piece hp
      simp only [List.splitOn, List.splitOnP_nil, List.mem_singleton] at hp
      simp [hp]
  | cons c cs ih =>
      intro piece hp
      simp only [List.splitOn, List.splitOnP_cons] at hp ih
      by_cases hc : (c == '@') = true
      · rw [if_pos hc] at hp
        rcases List.mem_cons.mp hp with h | h
        · simp [h]
        · exact ih piece h
      · rw [if_neg hc] at hp
        rcases hsp : List.splitOnP (fun x => x == '@') cs with _ | ⟨hd, tl⟩
        · exact absurd hsp (List.splitOnP_ne_nil _ cs)
        · rw [hsp] at hp
          simp only [List.modifyHead] at hp
          rcases List.mem_cons.mp hp with h | h
          · subst h
            intro hmem
            rcases List.mem_cons.mp hmem with h' | h'
            · exact hc (by simp [h'.symm])
            · exact ih hd (by rw [hsp]; exact List.mem_cons_self hd tl) h'
          · exact ih piece (by rw [hsp]; exact List.mem_cons_of_mem hd h)

theorem splitOn_pair_iff (cs l d : List Char) :
    cs.splitOn '@' = [l, d] ↔ cs = l ++ '@' :: d ∧ '@' ∉ l ∧ '@' ∉ d := by
  constructor
  · intro h
    have h1 := List.intercalate_splitOn cs '@'
    rw [h] at h1
    have hl : '@' ∉ l := not_mem_of_mem_splitOnAt cs l (by rw [h]; simp)
    have hd : '@' ∉ d := not_mem_of_mem_splitOnAt cs d (by rw [h]; simp)
    refine ⟨?_, hl, hd⟩
    rw [← h1]
    simp [List.intercalate, List.intersperse]
  · rintro ⟨rfl, hl, hd⟩
    have h1 : List.splitOnP (fun x => x == '@') (l ++ '@' :: d) = l :: List.splitOnP (fun x => x == '@') d := by
      refine List.splitOnP_first _ l ?_ '@' (by simp) d
      intro x hx
      simp only [beq_iff_eq]
      intro hx'
      exact hl (hx' ▸ hx)
    have h2 : List.splitOnP (fun x => x == '@') d = [d] := by
      refine List.splitOnP_eq_single _ d ?_
      intro x hx
      simp only [beq_iff_eq]
      intro hx'
      exact hd (hx' ▸ hx)
    simp only [List.splitOn]
    rw [h1, h2]

theorem interior_dot_iff (d : List Char) :
    ((d.drop 1).dropLast.contains '.') = true ↔
      ∃ d1 d2 : List Char, d = d1 ++ '.' :: d2 ∧ d1 ≠ [] ∧ d2 ≠ [] := by
  constructor
  · intro h
    rcases d with _ | ⟨a, rest⟩
    · simp [List.contains] at h
    · simp only [List.drop_succ_cons, List.drop_zero] at h
      have hmem : '.' ∈ rest.dropLast := by
        simpa [List.contains, List.elem_iff] using h
      rcases List.eq_nil_or_concat rest with rfl | ⟨r0, b, rfl⟩
      · simp at hmem
      · rw [List.concat_eq_append, List.dropLast_concat] at hmem
        obtain ⟨s, t, hst⟩ := List.append_of_mem hmem
        refine ⟨a :: s, t ++ [b], ?_, by simp, by simp⟩
        rw [List.concat_eq_append, hst]
        simp
  · rintro ⟨d1, d2, rfl, h1, h2⟩
    obtain ⟨a, d1h, rfl⟩ := List.exists_cons_of_ne_nil h1
    rcases List.eq_nil_or_concat d2 with rfl | ⟨d2h, b, rfl⟩
    · exact absurd rfl h2
    · simp only [List.concat_eq_append, List.cons_append, List.drop_succ_cons,
        List.drop_zero]
      have hre : d1h ++ '.' :: (d2h ++ [b]) = (d1h ++ '.' :: d2h) ++ [b] := by simp
      rw [hre, List.dropLast_concat]
      simp [List.contains, List.elem_iff]

theorem matchEmailCore_eq_true_iff (cs : List Char) :
    matchEmailCore cs = true ↔
      ∃ l d1 d2 : List Char, cs = l ++ '@' :: (d1 ++ '.' :: d2) ∧
        l ≠ [] ∧ d1 ≠ [] ∧ d2 ≠ [] ∧
        l.all tokenChar = true ∧ d1.all tokenChar = true ∧ d2.all tokenChar = true := by
  constructor
  · intro h
    rcases hsp : cs.splitOn '@' with _ | ⟨l, _ | ⟨d, _ | ⟨x, xs⟩⟩⟩
    · rw [matchEmailCore, hsp] at h
      exact absurd h (by simp)
    · rw [matchEmailCore, hsp] at h
      exact absurd h (by simp)
    · rw [matchEmailCore, hsp] at h
      simp only [Bool.and_eq_true, Bool.not_eq_true'] at h
      obtain ⟨⟨⟨⟨hl0, hlt⟩, hd0⟩, hdt⟩, hdot⟩ := h
      obtain ⟨hcs, -, -⟩ := (splitOn_pair_iff cs l d).mp hsp
      obtain ⟨d1, d2, rfl, h1, h2⟩ := (interior_dot_iff d).mp hdot
      have hsplit := hdt
      rw [List.all_append, List.all_cons, Bool.and_eq_true, Bool.and_eq_true] at hsplit
      exact ⟨l, d1, d2, hcs, by simpa using hl0, h1, h2, hlt, hsplit.1, hsplit.2.2⟩
    · rw [matchEmailCore, hsp] at h
      exact absurd h (by simp)
  · rintro ⟨l, d1, d2, rfl, h1, h2, h3, hlt, h1t, h2t⟩
    have hnl : '@' ∉ l := by
      intro hm
      have := (List.all_eq_true.mp hlt) '@' hm
      simp [tokenChar] at this
    have hnd : '@' ∉ d1 ++ '.' :: d2 := by
      intro hm
      rcases List.mem_append.mp hm with hm | hm
      · have := (List.all_eq_true.mp h1t) '@' hm
        simp [tokenChar] at this
      · rcases List.mem_cons.mp hm with hm | hm
        · exact absurd hm.symm (by decide)
        · have := (List.all_eq_true.mp h2t) '@' hm
          simp [tokenChar] at this
    have hsp := (splitOn_pair_iff _ l (d1 ++ '.' :: d2)).mpr ⟨rfl, hnl, hnd⟩
    rw [matchEmailCore, hsp]
    simp only [Bool.and_eq_true, Bool.not_eq_true']
    refine ⟨⟨⟨⟨by simpa using h1, hlt⟩, by simp⟩, ?_⟩, ?_⟩
    · rw [List.all_append, List.all_cons]
      simp [h1t, h2t, tokenChar, pyIsSpace]
    · exact (interior_dot_iff _).mpr ⟨d1, d2, rfl, h2, h3⟩

theorem decomp_getLast_token (l d1 d2 : List Char) (h2 : d2 ≠ [])
    (ht : d2.all tokenChar = true) :
    ∃ c, (l ++ '@' :: (d1 ++ '.' :: d2)).getLast? = some c ∧ tokenChar c = true := by
  rcases List.eq_nil_or_concat d2 with rfl | ⟨d2h, b, rfl⟩
  · exact absurd rfl h2
  · refine ⟨b, ?_, ?_⟩
    · have hre : l ++ '@' :: (d1 ++ '.' :: (d2h.concat b)) =
          (l ++ '@' :: (d1 ++ '.' :: d2h)) ++ [b] := by simp
      rw [hre, List.getLast?_concat]
    · exact (List.all_eq_true.mp ht) b (by simp)

theorem is_valid_email_eq_true_iff (a : String) :
    is_valid_email a = true ↔
      ∃ l d1 d2 : List Char,
        (a.data = l ++ '@' :: (d1 ++ '.' :: d2) ∨
         a.data = (l ++ '@' :: (d1 ++ '.' :: d2)) ++ ['\n']) ∧
        l ≠ [] ∧ d1 ≠ [] ∧ d2 ≠ [] ∧
        l.all tokenChar = true ∧ d1.all tokenChar = true ∧ d2.all tokenChar = true := by
  by_cases ha : a = ""
  · subst ha
    constructor
    · intro h
      exact absurd h (by decide)
    · rintro ⟨l, d1, d2, hcs | hcs, h1, h2, h3, -⟩ <;>
        · obtain ⟨c, lh, rfl⟩ := List.exists_cons_of_ne_nil h1
          simp [show ("" : String).data = [] from rfl] at hcs
  · rw [is_valid_email, if_neg ha]
    by_cases hl : a.data.getLast? = some '\n'
    · have hne : a.data ≠ [] := by
        rintro hnil
        rw [hnil] at hl
        exact absurd hl (by simp)
      have hlast : a.data.getLast hne = '\n' := by
        have := List.getLast?_eq_getLast a.data hne
        rw [this] at hl
        exact (Option.some_inj.mp hl)
      have hrec : a.data = a.data.dropLast ++ ['\n'] := by
        conv_lhs => rw [← List.dropLast_append_getLast hne]
        rw [hlast]
      rw [pyDollarStrip, if_pos hl, matchEmailCore_eq_true_iff]
      constructor
      · rintro ⟨l, d1, d2, hd, h1, h2, h3, hts⟩
        refine ⟨l, d1, d2, Or.inr ?_, h1, h2, h3, hts⟩
        rw [hrec, hd]
      · rintro ⟨l, d1, d2, hcs | hcs, h1, h2, h3, hlt, h1t, h2t⟩
        · obtain ⟨c, hc, hct⟩ := decomp_getLast_token l d1 d2 h3 h2t
          rw [← hcs] at hc
          rw [hl] at hc
          have : c = '\n' := (Option.some_inj.mp hc.symm)
          rw [this] at hct
          exact absurd hct (by decide)
        · refine ⟨l, d1, d2, ?_, h1, h2, h3, hlt, h1t, h2t⟩
          rw [hcs, List.dropLast_concat]
    · rw [pyDollarStrip, if_neg hl, matchEmailCore_eq_true_iff]
      constructor
      · rintro ⟨l, d1, d2, hd, hrest⟩
        exact ⟨l, d1, d2, Or.inl hd, hrest⟩
      · rintro ⟨l, d1, d2, hcs | hcs, hrest⟩
        · exact ⟨l, d1, d2, hcs, hrest⟩
        · rw [hcs, List.getLast?_concat] at hl
          exact absurd rfl hl



theorem fmtGo_cons_plain (vars : String → Option String) (c : Char) (rest : List Char)
    (hc1 : c ≠ '{') (hc2 : c ≠ '}') :
    fmtGo vars none (c :: rest) =
      match fmtGo vars none rest with
      | .error e => .error e
      | .ok r => .ok (c :: r) := by
  conv_lhs => unfold fmtGo
  split <;> simp_all

theorem fmtGo_open (vars : String → Option String) (c : Char) (rest : List Char)
    (hc1 : c ≠ '{') :
    fmtGo vars none ('{' :: c :: rest) = fmtGo vars (some []) (c :: rest) := by
  conv_lhs => unfold fmtGo
  split <;> try simp_all
  rename_i hA hB heq
  exact absurd heq.1.symm hA

theorem fmtGo_field_step (vars : String → Option String) (acc : List Char) (c : Char)
    (rest : List Char) (hc : c ≠ '}') :
    fmtGo vars (some acc) (c :: rest) = fmtGo vars (some (c :: acc)) rest := by
  conv_lhs => unfold fmtGo
  split <;> simp_all

theorem fmtGo_field_close (vars : String → Option String) (acc : List Char)
    (rest : List Char) :
    fmtGo vars (some acc) ('}' :: rest) =
      match substField vars acc.reverse with
      | .error e => .error e
      | .ok v =>
          match fmtGo vars none rest with
          | .error e => .error e
          | .ok r => .ok (v ++ r) := by
  conv_lhs => unfold fmtGo
  split <;> simp_all



theorem fmtGo_literal (vars : String → Option String) (lit cs : List Char)
    (h : ∀ c ∈ lit, c ≠ '{' ∧ c ≠ '}') :
    fmtGo vars none (lit ++ cs) =
      match fmtGo vars none cs with
      | .error e => .error e
      | .ok r => .ok (lit ++ r) := by
  induction lit with
  | nil => cases hr : fmtGo vars none cs <;> simp [hr]
  | cons c lit ih =>
      have hc := h c (by simp)
      rw [List.cons_append, fmtGo_cons_plain vars c (lit ++ cs) hc.1 hc.2]
      rw [ih (fun x hx => h x (by simp [hx]))]
      cases hr : fmtGo vars none cs <;> simp

theorem fmtGo_scan (vars : String → Option String) (key : List Char) :
    ∀ (acc cs : List Char), (∀ c ∈ key, c ≠ '}') →
    fmtGo vars (some acc) (key ++ cs) = fmtGo vars (some (key.reverse ++ acc)) cs := by
  induction key with
  | nil => intro acc cs _; simp
  | cons c key ih =>
      intro acc cs h
      rw [List.cons_append, fmtGo_field_step vars acc c (key ++ cs) (h c (by simp))]
      rw [ih (c :: acc) cs (fun x hx => h x (by simp [hx]))]
      simp

theorem substField_plain (vars : String → Option String) (key : List Char)
    (hk : ∀ c ∈ key, c ≠ ':' ∧ c ≠ '!' ∧ c ≠ '.' ∧ c ≠ '[')
    (hne : key ≠ []) (hnd : ¬(key.all Char.isDigit = true)) :
    substField vars key =
      match vars (String.mk key) with
      | none => .error (.missingVariable (String.mk key))
      | some v => .ok v.data := by
  have htw : key.takeWhile (fun c => !(c = ':' || c = '!')) = key := by
    rw [List.takeWhile_eq_self_iff]
    intro x hx
    simp [(hk x hx).1, (hk x hx).2.1]
  have h1 : (key.any fun c => c = '.' || c = '[') = false := by
    rw [List.any_eq_false]
    intro x hx
    simp [(hk x hx).2.2.1, (hk x hx).2.2.2]
  have h2 : key.isEmpty = false := List.isEmpty_eq_false.mpr hne
  have h3 : key.all Char.isDigit = false := by
    cases h : key.all Char.isDigit
    · rfl
    · exact absurd h hnd
  unfold substField
  simp only [htw, h1, h2, h3]
  simp

theorem fmtGo_single_field (vars : String → Option String) (lit key tail : List Char)
    (hlit : ∀ c ∈ lit, c ≠ '{' ∧ c ≠ '}')
    (hkey : ∀ c ∈ key, c ≠ '{' ∧ c ≠ '}' ∧ c ≠ ':' ∧ c ≠ '!' ∧ c ≠ '.' ∧ c ≠ '[')
    (hne : key ≠ []) (hnd : ¬(key.all Char.isDigit = true)) :
    fmtGo vars none (lit ++ '{' :: (key ++ '}' :: tail)) =
      match vars (String.mk key) with
      | none => .error (.missingVariable (String.mk key))
      | some v =>
          match fmtGo vars none tail with
          | .error e => .error e
          | .ok r => .ok (lit ++ (v.data ++ r)) := by
  rw [fmtGo_literal vars lit _ hlit]
  obtain ⟨c0, key0, rfl⟩ := List.exists_cons_of_ne_nil hne
  rw [show (c0 :: key0) ++ '}' :: tail = c0 :: (key0 ++ '}' :: tail) from rfl]
  rw [fmtGo_open vars c0 _ (hkey c0 (by simp)).1]
  rw [show c0 :: (key0 ++ '}' :: tail) = (c0 :: key0) ++ '}' :: tail from rfl]
  rw [fmtGo_scan vars (c0 :: key0) [] ('}' :: tail) (fun c hc => (hkey c hc).2.1)]
  rw [fmtGo_field_close]
  simp only [List.append_nil, List.reverse_reverse]
  rw [substField_plain vars (c0 :: key0) (fun c hc => ⟨(hkey c hc).2.2.1, (hkey c hc).2.2.2.1,
    (hkey c hc).2.2.2.2.1, (hkey c hc).2.2.2.2.2⟩) (by simp) hnd]
  cases vars (String.mk (c0 :: key0)) <;> cases hr : fmtGo vars none tail <;> simp

/-- C5 (counterexample): the spec's characterization of the validator —
exactly one `@`, no whitespace, a `.` somewhere after the `@` — accepts
`"a@.c"`, but the code's regex `^[^@\s]+@[^@\s]+\.[^@\s]+$` rejects it
(the `.` must have a nonempty token run on each side within the domain). -/
theorem C5_claim_counterexample :
    specValidEmail "a@.c" = true ∧ is_valid_email "a@.c" = false := by decide

/-- C5 (amended): `is_valid_email` returns false on empty or
whitespace-only input, and in general accepts exactly the strings that —
after ignoring at most one trailing newline (Python's `$`) — decompose as
`local@d1.d2` with `local`, `d1`, `d2` nonempty runs of characters that
are neither `@` nor whitespace; `"a@b.com"` is valid, `"not-an-email"`,
`""` and `"a@b"` are invalid. -/
theorem C5_validator_amended :
    (∀ a : String, a.data.all pyIsSpace = true → is_valid_email a = false) ∧
    (∀ a : String, is_valid_email a = true ↔
      ∃ l d1 d2 : List Char,
        (a.data = l ++ '@' :: (d1 ++ '.' :: d2) ∨
         a.data = (l ++ '@' :: (d1 ++ '.' :: d2)) ++ ['\n']) ∧
        l ≠ [] ∧ d1 ≠ [] ∧ d2 ≠ [] ∧
        l.all tokenChar = true ∧ d1.all tokenChar = true ∧ d2.all tokenChar = true) ∧
    is_valid_email "a@b.com" = true ∧
    is_valid_email "not-an-email" = false ∧
    is_valid_email "" = false ∧
    is_valid_email "a@b" = false := by
  refine ⟨?_, is_valid_email_eq_true_iff, by decide, by decide, by decide, by decide⟩
  intro a h
  cases hv : is_valid_email a with
  | false => rfl
  | true =>
      exfalso
      obtain ⟨l, d1, d2, hcs, h1, -, -, hlt, -⟩ := (is_valid_email_eq_true_iff a).mp hv
      obtain ⟨c, lh, rfl⟩ := List.exists_cons_of_ne_nil h1
      have hcmem : c ∈ a.data := by
        rcases hcs with hcs | hcs <;> rw [hcs] <;> simp
      have hsp : pyIsSpace c = true := (List.all_eq_true.mp h) c hcmem
      have htc : tokenChar c = true := (List.all_eq_true.mp hlt) c (by simp)
      rw [tokenChar, hsp] at htc
      simp at htc

/-- Witness for C5: the amended theorem applied at the whitespace-only
input `" "`. -/
theorem C5_validator_amended_witness :
    (" ".data.all pyIsSpace = true) ∧ is_valid_email " " = false :=
  ⟨by decide, C5_validator_amended.1 " " (by decide)⟩

/-- C4: rendering substitutes `\x7bkey\x7d` placeholders with the values
from the variables (`"Hi \x7bname\x7d"` with `name = "Ann"` gives
`"Hi Ann"`); a placeholder whose key is absent makes the render fail with
a `missingVariable` error naming that key — never a silent blank — for any
literal prefix, plain key and arbitrary tail; the empty template renders
to the empty string. -/
theorem C4_render_template_missing_fatal :
    (∀ vs, render_template "" vs = .ok "") ∧
    (render_template "Hi {name}" (fun k => if k = "name" then some "Ann" else none) =
      .ok "Hi Ann") ∧
    (render_template "Hi {missing}" (fun k => if k = "name" then some "Ann" else none) =
      .error (.missingVariable "missing")) ∧
    (∀ (lit key tail : List Char) (vs : String → Option String),
      (∀ c ∈ lit, c ≠ '{' ∧ c ≠ '}') →
      (∀ c ∈ key, c ≠ '{' ∧ c ≠ '}' ∧ c ≠ ':' ∧ c ≠ '!' ∧ c ≠ '.' ∧ c ≠ '[') →
      key ≠ [] → ¬(key.all Char.isDigit = true) →
      (vs (String.mk key) = none →
        render_template (String.mk (lit ++ '{' :: (key ++ '}' :: tail))) vs =
          .error (.missingVariable (String.mk key))) ∧
      (∀ v r, vs (String.mk key) = some v → fmtGo vs none tail = .ok r →
        render_template (String.mk (lit ++ '{' :: (key ++ '}' :: tail))) vs =
          .ok (String.mk (lit ++ (v.data ++ r))))) := by
  refine ⟨fun vs => rfl, rfl, rfl, ?_⟩
  intro lit key tail vs hlit hkey hne hnd
  constructor
  · intro hmiss
    rw [render_template]
    rw [show (String.mk (lit ++ '{' :: (key ++ '}' :: tail))).data =
        lit ++ '{' :: (key ++ '}' :: tail) from rfl]
    rw [fmtGo_single_field vs lit key tail hlit hkey hne hnd, hmiss]
  · intro v r hv hr
    rw [render_template]
    rw [show (String.mk (lit ++ '{' :: (key ++ '}' :: tail))).data =
        lit ++ '{' :: (key ++ '}' :: tail) from rfl]
    rw [fmtGo_single_field vs lit key tail hlit hkey hne hnd, hv, hr]

/-- Witness for C4: the general missing-variable branch applied at the
concrete template `"Hi \x7bzz\x7d"` with an empty variable mapping. -/
theorem C4_render_template_missing_fatal_witness :
    render_template "Hi {zz}" (fun _ => none) = .error (.missingVariable "zz") :=
  (C4_render_template_missing_fatal.2.2.2 ('H' :: 'i' :: ' ' :: []) ('z' :: 'z' :: [])
    [] (fun _ => none) (by decide) (by decide) (by decide) (by decide)).1 rfl

/-! ### ResourceAttacher resilience (C6) and EML naming (C8) -/

theorem attach_inline_fail (fs : FileSystem) (p : String) (parts : List MimePart)
    (h : fs p = .fileNotFound ∨ fs p = .ioError) :
    attach_inline fs parts p = (parts, "") := by
  rcases h with h | h <;> simp [attach_inline, h]

theorem attach_regular_fail (fs : FileSystem) (p : String) (parts : List MimePart)
    (h : fs p = .fileNotFound ∨ fs p = .ioError) :
    attach_regular fs parts p = parts := by
  rcases h with h | h <;> simp [attach_regular, h]

theorem foldl_inlineStep_fail (fs : FileSystem) (p : String)
    (h : fs p = .fileNotFound ∨ fs p = .ioError) (l1 l2 : List String)
    (init : List MimePart × List (String × String)) :
    (l1 ++ p :: l2).foldl (inlineStep fs) init = (l1 ++ l2).foldl (inlineStep fs) init := by
  rw [List.foldl_append, List.foldl_append, List.foldl_cons]
  have hstep : inlineStep fs (l1.foldl (inlineStep fs) init) p =
      l1.foldl (inlineStep fs) init := by
    simp [inlineStep, attach_inline_fail fs p _ h]
  rw [hstep]

theorem foldl_attach_regular_fail (fs : FileSystem) (p : String)
    (h : fs p = .fileNotFound ∨ fs p = .ioError) (l1 l2 : List String)
    (init : List MimePart) :
    (l1 ++ p :: l2).foldl (attach_regular fs) init = (l1 ++ l2).foldl (attach_regular fs) init := by
  rw [List.foldl_append, List.foldl_append, List.foldl_cons]
  rw [attach_regular_fail fs p _ h]

/-- C6: a file-not-found or any other I/O failure while reading an inline
resource or an attachment adds no MIME part and no content-ID entry, and
leaves everything else of the built message untouched: the build with the
failing path is equal to the build without it, for both resource kinds. -/
theorem C6_attach_failure_resilience :
    ∀ (fs : FileSystem) (now : Nat) (msgid : String) (writeOk : Bool)
      (fn fa ta su tb hb rt un : String) (sd : Option String)
      (l1 l2 ap : List String) (p : String),
      (fs p = .fileNotFound ∨ fs p = .ioError) →
      build_message fs now msgid writeOk fn fa ta su tb hb (l1 ++ p :: l2) ap rt un sd =
        build_message fs now msgid writeOk fn fa ta su tb hb (l1 ++ l2) ap rt un sd ∧
      build_message fs now msgid writeOk fn fa ta su tb hb ap (l1 ++ p :: l2) rt un sd =
        build_message fs now msgid writeOk fn fa ta su tb hb ap (l1 ++ l2) rt un sd := by
  intro fs now msgid writeOk fn fa ta su tb hb rt un sd l1 l2 ap p h
  constructor
  · simp only [build_message, foldl_inlineStep_fail fs p h]
  · simp only [build_message, foldl_attach_regular_fail fs p h]

/-- Witness for C6: a file system on which every read fails with
file-not-found, one inline path; the built message equals the build with
no inline resources at all. -/
theorem C6_attach_failure_resilience_witness :
    ((fun _ => ReadResult.fileNotFound : FileSystem) "a.png" = .fileNotFound ∨
     (fun _ => ReadResult.fileNotFound : FileSystem) "a.png" = .ioError) ∧
    build_message (fun _ => ReadResult.fileNotFound) 5 "m" true "F" "f@x.com" "t@y.com"
        "s" "tb" "hb" ([] ++ "a.png" :: []) [] "" "" none =
      build_message (fun _ => ReadResult.fileNotFound) 5 "m" true "F" "f@x.com" "t@y.com"
        "s" "tb" "hb" ([] ++ []) [] "" "" none :=
  ⟨Or.inl rfl,
    (C6_attach_failure_resilience (fun _ => ReadResult.fileNotFound) 5 "m" true "F"
      "f@x.com" "t@y.com" "s" "tb" "hb" "" "" none [] [] [] "a.png" (Or.inl rfl)).1⟩

theorem digitChar_safe (n : Nat) (h : n < 10) : safeChar (Nat.digitChar n) = true := by
  interval_cases n <;> decide

theorem toDigitsCore_safe :
    ∀ (fuel n : Nat) (acc : List Char), (∀ c ∈ acc, safeChar c = true) →
      ∀ c ∈ Nat.toDigitsCore 10 fuel n acc, safeChar c = true := by
  intro fuel
  induction fuel with
  | zero => intro n acc hacc c hc; exact hacc c hc
  | succ fuel ih =>
      intro n acc hacc c hc
      rw [Nat.toDigitsCore] at hc
      have hd : safeChar (Nat.digitChar (n % 10)) = true :=
        digitChar_safe _ (Nat.mod_lt n (by norm_num))
      by_cases h0 : n / 10 = 0
      · rw [if_pos h0] at hc
        rcases List.mem_cons.mp hc with rfl | hc
        · exact hd
        · exact hacc c hc
      · rw [if_neg h0] at hc
        refine ih (n / 10) _ ?_ c hc
        intro x hx
        rcases List.mem_cons.mp hx with rfl | hx
        · exact hd
        · exact hacc x hx

theorem natRepr_safe (n : Nat) : (toString n).data.all safeChar = true := by
  rw [List.all_eq_true]
  intro c hc
  exact toDigitsCore_safe (n + 1) n [] (by simp) c hc

theorem sanitize_append (s t : String) : sanitize (s ++ t) = sanitize s ++ sanitize t := by
  apply String.ext
  simp [sanitize, String.data_append]

theorem sanitize_of_safe (s : String) (h : s.data.all safeChar = true) : sanitize s = s := by
  apply String.ext
  show s.data.map (fun c => if safeChar c then c else _) = s.data
  conv_rhs => rw [← List.map_id s.data]
  apply List.map_congr_left
  intro a ha
  rw [if_pos ((List.all_eq_true.mp h) a ha)]
  rfl

/-- C8: the EML destination name is the recipient address and the Unix
timestamp with every character outside `[A-Za-z0-9_.-]` replaced by `_` —
so it consists only of safe characters, equals the sanitized address
followed by the timestamp, and ends in `.eml`; and the write verdict never
affects the built message, content-ID map, or the pipeline outcome for
that recipient. -/
theorem C8_eml_naming :
    (∀ (addr : String) (ts : Nat), (emlFilename addr ts).data.all safeChar = true) ∧
    (∀ (addr : String) (ts : Nat),
      emlFilename addr ts = sanitize addr ++ "_" ++ toString ts ++ ".eml") ∧
    (∀ (fs : FileSystem) (now : Nat) (msgid : String) (w : Bool)
       (fn fa ta su tb hb rt un : String) (ip ap : List String) (sd : Option String),
      (build_message fs now msgid w fn fa ta su tb hb ip ap rt un sd).1 =
        (build_message fs now msgid true fn fa ta su tb hb ip ap rt un sd).1 ∧
      (build_message fs now msgid w fn fa ta su tb hb ip ap rt un sd).2.1 =
        (build_message fs now msgid true fn fa ta su tb hb ip ap rt un sd).2.1) ∧
    (∀ (cfg : Config) (fs : FileSystem) (s : Bool) (n : Nat) (m : String) (w1 w2 : Bool)
       (st : Tally) (r : Record),
      (processOne cfg fs ⟨s, n, m, w1⟩ st r).map (fun p => (p.1, p.2.outcome)) =
        (processOne cfg fs ⟨s, n, m, w2⟩ st r).map (fun p => (p.1, p.2.outcome))) := by
  refine ⟨?_, ?_, ?_, ?_⟩
  · intro addr ts
    rw [List.all_eq_true]
    intro c hc
    rw [emlFilename, sanitize] at hc
    obtain ⟨c0, hc0, rfl⟩ := List.mem_map.mp hc
    by_cases hs : safeChar c0 = true
    · rw [if_pos hs]; exact hs
    · rw [if_neg hs]; decide
  · intro addr ts
    rw [emlFilename, sanitize_append, sanitize_append, sanitize_append]
    rw [sanitize_of_safe "_" (by decide), sanitize_of_safe _ (natRepr_safe ts),
      sanitize_of_safe ".eml" (by decide)]
  · intro fs now msgid w fn fa ta su tb hb rt un ip ap sd
    constructor <;> simp [build_message]
  · intro cfg fs s n m w1 w2 st r
    unfold processOne
    dsimp only
    repeat' split
    all_goals rfl

/-! ### DeliveryPipeline lemmas -/

theorem build_message_emlWrite (fs : FileSystem) (now : Nat) (msgid : String) (w : Bool)
    (fn fa ta su tb hb : String) (ip ap : List String) (rt un : String)
    (sd : Option String) :
    (build_message fs now msgid w fn fa ta su tb hb ip ap rt un sd).2.2 =
      sd.map (fun _ => (emlFilename ta now, w)) := by
  cases sd <;> simp [build_message]

theorem processOne_email (cfg : Config) (fs : FileSystem) (o : Oracle) (st : Tally)
    (r : Record) (st2 : Tally) (step : StepResult)
    (h : processOne cfg fs o st r = .ok (st2, step)) : step.email = r.email := by
  unfold processOne at h
  dsimp only at h
  repeat' split at h
  all_goals try exact Except.noConfusion h
  all_goals rw [Except.ok.injEq, Prod.mk.injEq] at h
  all_goals obtain ⟨rfl, rfl⟩ := h
  all_goals rfl

theorem processOne_tally (cfg : Config) (fs : FileSystem) (o : Oracle) (st : Tally)
    (r : Record) (st2 : Tally) (step : StepResult)
    (h : processOne cfg fs o st r = .ok (st2, step)) :
    st2.total = st.total + 1 ∧ st2.sent + st2.skipped = st.sent + st.skipped + 1 := by
  unfold processOne at h
  dsimp only at h
  repeat' split at h
  all_goals try exact Except.noConfusion h
  all_goals rw [Except.ok.injEq, Prod.mk.injEq] at h
  all_goals obtain ⟨rfl, rfl⟩ := h
  all_goals dsimp only
  all_goals omega

theorem processOne_seen (cfg : Config) (fs : FileSystem) (o : Oracle) (st : Tally)
    (r : Record) (st2 : Tally) (step : StepResult)
    (h : processOne cfg fs o st r = .ok (st2, step)) :
    ∀ a : String, st2.seen.contains a = true ↔
      (st.seen.contains a = true ∨ (a = r.email ∧ is_valid_email a = true)) := by
  unfold processOne at h
  dsimp only at h
  repeat' split at h
  all_goals try exact Except.noConfusion h
  all_goals rw [Except.ok.injEq, Prod.mk.injEq] at h
  all_goals obtain ⟨rfl, rfl⟩ := h
  all_goals intro a
  all_goals try simp_all [List.contains_cons]
  all_goals constructor
  all_goals try tauto
  all_goals rintro (rfl | hc)
  all_goals try exact Or.inl hc
  all_goals exact Or.inr ⟨rfl, by assumption⟩

theorem processOne_outcome (cfg : Config) (fs : FileSystem) (o : Oracle) (st : Tally)
    (r : Record) (st2 : Tally) (step : StepResult)
    (h : processOne cfg fs o st r = .ok (st2, step)) :
    (step.outcome = .skippedInvalid ↔ is_valid_email r.email = false) ∧
    (step.outcome = .skippedDuplicate ↔
      (is_valid_email r.email = true ∧ st.seen.contains r.email = true)) ∧
    (step.outcome = .skippedNoConsent ↔
      (is_valid_email r.email = true ∧ st.seen.contains r.email = false ∧
        consentSkips cfg r.row = true)) ∧
    ((step.outcome = .sentDry ∨ step.outcome = .sentLive ∨
        step.outcome = .skippedSendFail) ↔
      (is_valid_email r.email = true ∧ st.seen.contains r.email = false ∧
        consentSkips cfg r.row = false)) ∧
    (step.outcome = .sentLive ∨ step.outcome = .skippedSendFail → cfg.dryRun = false) ∧
    (step.outcome = .sentDry → cfg.dryRun = true) ∧
    (step.outcome = .sentLive → o.sendOk = true) ∧
    (step.outcome = .skippedSendFail → o.sendOk = false) := by
  unfold processOne at h
  dsimp only at h
  repeat' split at h
  all_goals try exact Except.noConfusion h
  all_goals rw [Except.ok.injEq, Prod.mk.injEq] at h
  all_goals obtain ⟨rfl, rfl⟩ := h
  all_goals simp_all

theorem processOne_slept (cfg : Config) (fs : FileSystem) (o : Oracle) (st : Tally)
    (r : Record) (st2 : Tally) (step : StepResult)
    (h : processOne cfg fs o st r = .ok (st2, step)) :
    step.slept = if cfg.dryRun = false ∧ step.outcome = Outcome.sentLive ∧
        0 < rateDelay cfg then some (rateDelay cfg) else none := by
  unfold processOne at h
  dsimp only at h
  repeat' split at h
  all_goals try exact Except.noConfusion h
  all_goals rw [Except.ok.injEq, Prod.mk.injEq] at h
  all_goals obtain ⟨rfl, rfl⟩ := h
  all_goals try simp_all
  all_goals rename_i hle
  all_goals rw [if_neg (not_lt.mpr hle)]

theorem processOne_emlFile (cfg : Config) (fs : FileSystem) (o : Oracle) (st : Tally)
    (r : Record) (st2 : Tally) (step : StepResult)
    (h : processOne cfg fs o st r = .ok (st2, step)) :
    ((step.outcome = .skippedInvalid ∨ step.outcome = .skippedDuplicate ∨
        step.outcome = .skippedNoConsent) → step.emlFile = none) ∧
    ((step.outcome = .sentDry ∨ step.outcome = .sentLive ∨
        step.outcome = .skippedSendFail) →
      step.emlFile = cfg.saveEmlDir.map (fun _ => (emlFilename r.email o.now, o.writeOk))) := by
  unfold processOne at h
  dsimp only at h
  repeat' split at h
  all_goals try exact Except.noConfusion h
  all_goals rw [Except.ok.injEq, Prod.mk.injEq] at h
  all_goals obtain ⟨rfl, rfl⟩ := h
  all_goals simp_all [build_message_emlWrite]

theorem runAux_spec :
    ∀ (recs : List Record) (cfg : Config) (fs : FileSystem) (os : Nat → Oracle)
      (i : Nat) (st st2 : Tally) (steps : List StepResult),
      runAux cfg fs os i st recs = .ok (st2, steps) →
      steps.length = recs.length ∧
      st2.total = st.total + recs.length ∧
      st2.sent + st2.skipped = st.sent + st.skipped + recs.length ∧
      (∀ a : String, st2.seen.contains a = true ↔
        (st.seen.contains a = true ∨
          (is_valid_email a = true ∧ a ∈ recs.map (fun rr => rr.email)))) := by
  intro recs
  induction recs with
  | nil =>
      intro cfg fs os i st st2 steps h
      rw [runAux, Except.ok.injEq, Prod.mk.injEq] at h
      obtain ⟨rfl, rfl⟩ := h
      simp
  | cons r rs ih =>
      intro cfg fs os i st st2 steps h
      rw [runAux] at h
      rcases hp : processOne cfg fs (os i) st r with e | ⟨st1, step⟩
      · rw [hp] at h; exact Except.noConfusion h
      · rw [hp] at h
        dsimp only at h
        rcases hr : runAux cfg fs os (i + 1) st1 rs with e | ⟨stF, steps2⟩
        · rw [hr] at h; exact Except.noConfusion h
        · rw [hr] at h
          dsimp only at h
          rw [Except.ok.injEq, Prod.mk.injEq] at h
          obtain ⟨rfl, rfl⟩ := h
          obtain ⟨hlen, htot, hcnt, hseen⟩ := ih cfg fs os (i + 1) st1 stF steps2 hr
          obtain ⟨htot1, hcnt1⟩ := processOne_tally cfg fs (os i) st r st1 step hp
          have hseen1 := processOne_seen cfg fs (os i) st r st1 step hp
          refine ⟨by simp [hlen], by simp; omega, by simp; omega, ?_⟩
          intro a
          have h1 := hseen a
          have h2 := hseen1 a
          simp only [List.map_cons, List.mem_cons] at *
          tauto

theorem runAux_steps :
    ∀ (recs : List Record) (cfg : Config) (fs : FileSystem) (os : Nat → Oracle)
      (i : Nat) (st st2 : Tally) (steps : List StepResult),
      runAux cfg fs os i st recs = .ok (st2, steps) →
      ∀ (j : Nat) (hj : j < recs.length) (hsj : j < steps.length),
        (steps.get ⟨j, hsj⟩).email = (recs.get ⟨j, hj⟩).email ∧
        ((steps.get ⟨j, hsj⟩).outcome = .skippedInvalid ↔
          is_valid_email (recs.get ⟨j, hj⟩).email = false) ∧
        ((steps.get ⟨j, hsj⟩).outcome = .skippedDuplicate ↔
          (is_valid_email (recs.get ⟨j, hj⟩).email = true ∧
            (st.seen.contains (recs.get ⟨j, hj⟩).email = true ∨
              (recs.get ⟨j, hj⟩).email ∈ (recs.take j).map (fun rr => rr.email)))) := by
  intro recs
  induction recs with
  | nil =>
      intro cfg fs os i st st2 steps h j hj
      exact absurd hj (by simp)
  | cons r rs ih =>
      intro cfg fs os i st st2 steps h j hj hsj
      rw [runAux] at h
      rcases hp : processOne cfg fs (os i) st r with e | ⟨st1, step⟩
      · rw [hp] at h; exact Except.noConfusion h
      · rw [hp] at h
        dsimp only at h
        rcases hr : runAux cfg fs os (i + 1) st1 rs with e | ⟨stF, steps2⟩
        · rw [hr] at h; exact Except.noConfusion h
        · rw [hr] at h
          dsimp only at h
          rw [Except.ok.injEq, Prod.mk.injEq] at h
          obtain ⟨rfl, rfl⟩ := h
          match j with
          | 0 =>
              have hout := processOne_outcome cfg fs (os i) st r st1 step hp
              have hem := processOne_email cfg fs (os i) st r st1 step hp
              refine ⟨hem, hout.1, ?_⟩
              simp only [List.get, List.take_zero, List.map_nil, List.mem_nil_iff,
                or_false]
              exact hout.2.1
          | j + 1 =>
              have hj2 : j < rs.length := by simpa using hj
              have hsj2 : j < steps2.length := by simpa using hsj
              have hprev := ih cfg fs os (i + 1) st1 stF steps2 hr j hj2 hsj2
              have hseen1 := processOne_seen cfg fs (os i) st r st1 step hp
              rw [List.get_cons_succ, List.get_cons_succ, List.take_succ_cons]
              refine ⟨hprev.1, hprev.2.1, ?_⟩
              rw [hprev.2.2]
              have h2 := hseen1 ((rs.get ⟨j, hj2⟩).email)
              simp only [List.map_cons, List.mem_cons]
              constructor
              · rintro ⟨hv, hin | hin⟩
                · rcases (h2.mp hin) with hc | ⟨he, -⟩
                  · exact ⟨hv, Or.inl hc⟩
                  · exact ⟨hv, Or.inr (Or.inl he)⟩
                · exact ⟨hv, Or.inr (Or.inr hin)⟩
              · rintro ⟨hv, hc | he | hin⟩
                · exact ⟨hv, Or.inl (h2.mpr (Or.inl hc))⟩
                · exact ⟨hv, Or.inl (h2.mpr (Or.inr ⟨he, hv⟩))⟩
                · exact ⟨hv, Or.inr hin⟩

theorem mem_map_take_of_get (recs : List Record) (j1 j2 : Nat) (hj1 : j1 < recs.length)
    (hlt : j1 < j2) :
    (recs.get ⟨j1, hj1⟩).email ∈ (recs.take j2).map (fun rr => rr.email) := by
  refine List.mem_map.mpr ⟨recs.get ⟨j1, hj1⟩, ?_, rfl⟩
  have hlen : j1 < (recs.take j2).length := by
    rw [List.length_take]
    exact lt_min hlt hj1
  have hg : (recs.take j2).get ⟨j1, hlen⟩ = recs.get ⟨j1, hj1⟩ := by
    simp [List.get_eq_getElem, List.getElem_take]
  rw [← hg]
  exact List.get_mem _ _ _

/-- C1: when the recipient loop completes normally (no fatal rendering
error), the final tally satisfies `sent + skipped = total`, and `total`
counts every record yielded by the recipient source. -/
theorem C1_tally_invariant (cfg : Config) (fs : FileSystem) (os : Nat → Oracle)
    (recs : List Record) (st2 : Tally) (steps : List StepResult)
    (h : send_messages cfg fs os recs = .ok (st2, steps)) :
    st2.sent + st2.skipped = st2.total ∧ st2.total = recs.length := by
  obtain ⟨-, htot, hcnt, -⟩ := runAux_spec recs cfg fs os 0 initTally st2 steps h
  have h0 : initTally.total = 0 := rfl
  have h1 : initTally.sent = 0 := rfl
  have h2 : initTally.skipped = 0 := rfl
  refine ⟨?_, ?_⟩ <;> omega

def w1Cfg : Config :=
  { csvMode := false, requireConsent := true, consentField := "consent",
    dryRun := true, ratePerMinute := none, saveEmlDir := none,
    templateText := "", templateHtml := "", fromName := "T", fromAddr := "t@e.com",
    subject := "s", replyTo := "", unsubscribe := "", inlinePaths := [], attachPaths := [] }

def w1Recs : List Record := [⟨"a@b.com", "Ann", []⟩, ⟨"bad", "", []⟩]

def w1Tally : Tally := ⟨2, 1, 1, ["a@b.com"]⟩

def w1Steps : List StepResult :=
  [⟨"a@b.com", .sentDry, none, none⟩, ⟨"bad", .skippedInvalid, none, none⟩]

/-- Witness for C1: a two-record dry run, one valid and one invalid
recipient. -/
theorem C1_tally_invariant_witness :
    w1Tally.sent + w1Tally.skipped = w1Tally.total ∧ w1Tally.total = w1Recs.length :=
  C1_tally_invariant w1Cfg (fun _ => .fileNotFound) (fun _ => ⟨true, 0, "m", true⟩)
    w1Recs w1Tally w1Steps rfl

/-- C9: characterization of the SeenSet and its consequences — the final
seen set holds exactly the valid addresses that occurred; a record with an
invalid address is always skipped as invalid (never as duplicate); and a
valid address skipped earlier for consent or for a transport failure
blocks every later occurrence as a duplicate. -/
theorem C9_seen_set_invariant (cfg : Config) (fs : FileSystem) (os : Nat → Oracle)
    (recs : List Record) (st2 : Tally) (steps : List StepResult)
    (h : send_messages cfg fs os recs = .ok (st2, steps)) :
    (∀ a : String, st2.seen.contains a = true ↔
      (is_valid_email a = true ∧ a ∈ recs.map (fun rr => rr.email))) ∧
    (∀ (j : Nat) (hj : j < recs.length) (hsj : j < steps.length),
      is_valid_email (recs.get ⟨j, hj⟩).email = false →
      (steps.get ⟨j, hsj⟩).outcome = .skippedInvalid) ∧
    (∀ (j1 j2 : Nat) (hj1 : j1 < recs.length) (hj2 : j2 < recs.length)
       (hs1 : j1 < steps.length) (hs2 : j2 < steps.length), j1 < j2 →
      (recs.get ⟨j1, hj1⟩).email = (recs.get ⟨j2, hj2⟩).email →
      ((steps.get ⟨j1, hs1⟩).outcome = .skippedNoConsent ∨
        (steps.get ⟨j1, hs1⟩).outcome = .skippedSendFail) →
      (steps.get ⟨j2, hs2⟩).outcome = .skippedDuplicate) := by
  have hsp := runAux_spec recs cfg fs os 0 initTally st2 steps h
  have hst := runAux_steps recs cfg fs os 0 initTally st2 steps h
  refine ⟨?_, ?_, ?_⟩
  · intro a
    have ha := hsp.2.2.2 a
    rw [show initTally.seen = ([] : List String) from rfl, List.contains_nil] at ha
    simpa using ha
  · intro j hj hsj hv
    exact ((hst j hj hsj).2.1).mpr hv
  · intro j1 j2 hj1 hj2 hs1 hs2 hlt heq hout
    have hinv := (hst j1 hj1 hs1).2.1
    have hvalid : is_valid_email (recs.get ⟨j1, hj1⟩).email = true := by
      cases hvv : is_valid_email (recs.get ⟨j1, hj1⟩).email
      · have hi := hinv.mpr hvv
        rcases hout with ho | ho <;> rw [ho] at hi <;> exact absurd hi (by decide)
      · rfl
    refine ((hst j2 hj2 hs2).2.2).mpr ⟨heq ▸ hvalid, Or.inr ?_⟩
    rw [← heq]
    exact mem_map_take_of_get recs j1 j2 hj1 hlt

def w9Cfg : Config :=
  { csvMode := true, requireConsent := true, consentField := "consent",
    dryRun := true, ratePerMinute := none, saveEmlDir := none,
    templateText := "", templateHtml := "", fromName := "T", fromAddr := "t@e.com",
    subject := "s", replyTo := "", unsubscribe := "", inlinePaths := [], attachPaths := [] }

def w9Recs : List Record := [⟨"bad", "", []⟩, ⟨"bad", "", []⟩]

def w9Tally : Tally := ⟨2, 0, 2, []⟩

def w9Steps : List StepResult :=
  [⟨"bad", .skippedInvalid, none, none⟩, ⟨"bad", .skippedInvalid, none, none⟩]

/-- Witness for C9: the repeated invalid address is skipped as invalid at
its second occurrence too. -/
theorem C9_seen_set_invariant_witness :
    (w9Steps.get ⟨1, by decide⟩).outcome = Outcome.skippedInvalid :=
  (C9_seen_set_invariant w9Cfg (fun _ => .fileNotFound) (fun _ => ⟨true, 0, "m", true⟩)
    w9Recs w9Tally w9Steps rfl).2.1 1 (by decide) (by decide) (by decide)

def cexCfg : Config :=
  { csvMode := true, requireConsent := true, consentField := "consent",
    dryRun := true, ratePerMinute := none, saveEmlDir := none,
    templateText := "", templateHtml := "", fromName := "T", fromAddr := "t@e.com",
    subject := "s", replyTo := "", unsubscribe := "", inlinePaths := [], attachPaths := [] }

def cexRecs : List Record :=
  [⟨"bad", "", [("consent", "yes")]⟩, ⟨"bad", "", [("consent", "yes")]⟩]

/-- C2 (counterexample): in a CSV run where the same (invalid) address
`"bad"` appears in two rows with affirmative consent, no occurrence is
processed past the dedup gate and the second occurrence is skipped as
invalid, not as duplicate — the claim promised exactly one send/skip
candidate and a duplicate skip for every later occurrence. -/
theorem C2_claim_counterexample :
    Except.map (fun p => p.2.map (fun s => s.outcome))
        (send_messages cexCfg (fun _ => .fileNotFound) (fun _ => ⟨true, 0, "m", true⟩)
          cexRecs) =
      .ok [Outcome.skippedInvalid, Outcome.skippedInvalid] ∧
    Outcome.skippedInvalid ≠ Outcome.skippedDuplicate :=
  ⟨rfl, by decide⟩

/-- C2 (amended): for a *valid* email address, the first occurrence in a
run is never skipped as duplicate or invalid (it is a send/skip
candidate), every later occurrence is skipped as duplicate regardless of
its consent value, and no address is handed to the transport (live send or
live send failure) more than once in a run. -/
theorem C2_dedup_amended (cfg : Config) (fs : FileSystem) (os : Nat → Oracle)
    (recs : List Record) (st2 : Tally) (steps : List StepResult)
    (h : send_messages cfg fs os recs = .ok (st2, steps)) :
    (∀ (j : Nat) (hj : j < recs.length) (hsj : j < steps.length),
      is_valid_email (recs.get ⟨j, hj⟩).email = true →
      (((recs.get ⟨j, hj⟩).email ∈ (recs.take j).map (fun rr => rr.email)) →
        (steps.get ⟨j, hsj⟩).outcome = .skippedDuplicate) ∧
      (((recs.get ⟨j, hj⟩).email ∉ (recs.take j).map (fun rr => rr.email)) →
        (steps.get ⟨j, hsj⟩).outcome ≠ .skippedDuplicate ∧
        (steps.get ⟨j, hsj⟩).outcome ≠ .skippedInvalid)) ∧
    (∀ (j1 j2 : Nat) (hj1 : j1 < recs.length) (hj2 : j2 < recs.length)
       (hs1 : j1 < steps.length) (hs2 : j2 < steps.length), j1 < j2 →
      (recs.get ⟨j1, hj1⟩).email = (recs.get ⟨j2, hj2⟩).email →
      ((steps.get ⟨j1, hs1⟩).outcome = .sentLive ∨
        (steps.get ⟨j1, hs1⟩).outcome = .skippedSendFail) →
      ¬((steps.get ⟨j2, hs2⟩).outcome = .sentLive ∨
        (steps.get ⟨j2, hs2⟩).outcome = .skippedSendFail)) := by
  have hst := runAux_steps recs cfg fs os 0 initTally st2 steps h
  refine ⟨?_, ?_⟩
  · intro j hj hsj hv
    have hd := (hst j hj hsj).2.2
    refine ⟨fun hmem => hd.mpr ⟨hv, Or.inr hmem⟩, fun hmem => ⟨?_, ?_⟩⟩
    · intro hdup
      rcases (hd.mp hdup).2 with hc | hm
      · rw [show initTally.seen = ([] : List String) from rfl, List.contains_nil] at hc
        exact Bool.noConfusion hc
      · exact hmem hm
    · intro hinv
      have hb := ((hst j hj hsj).2.1).mp hinv
      rw [hv] at hb
      exact Bool.noConfusion hb
  · intro j1 j2 hj1 hj2 hs1 hs2 hlt heq hh1
    have hvalid : is_valid_email (recs.get ⟨j1, hj1⟩).email = true := by
      cases hvv : is_valid_email (recs.get ⟨j1, hj1⟩).email
      · have hi := ((hst j1 hj1 hs1).2.1).mpr hvv
        rcases hh1 with ho | ho <;> rw [ho] at hi <;> exact absurd hi (by decide)
      · rfl
    have hdup2 : (steps.get ⟨j2, hs2⟩).outcome = .skippedDuplicate := by
      refine ((hst j2 hj2 hs2).2.2).mpr ⟨heq ▸ hvalid, Or.inr ?_⟩
      rw [← heq]
      exact mem_map_take_of_get recs j1 j2 hj1 hlt
    rintro (ho | ho) <;> rw [ho] at hdup2 <;> exact absurd hdup2 (by decide)

def w2Cfg : Config :=
  { csvMode := true, requireConsent := false, consentField := "consent",
    dryRun := true, ratePerMinute := none, saveEmlDir := none,
    templateText := "", templateHtml := "", fromName := "T", fromAddr := "t@e.com",
    subject := "s", replyTo := "", unsubscribe := "", inlinePaths := [], attachPaths := [] }

def w2Recs : List Record := [⟨"a@b.com", "", []⟩, ⟨"a@b.com", "", []⟩]

def w2Tally : Tally := ⟨2, 1, 1, ["a@b.com"]⟩

def w2Steps : List StepResult :=
  [⟨"a@b.com", .sentDry, none, none⟩, ⟨"a@b.com", .skippedDuplicate, none, none⟩]

/-- Witness for C2: the second occurrence of the valid address is skipped
as duplicate. -/
theorem C2_dedup_amended_witness :
    (w2Steps.get ⟨1, by decide⟩).outcome = Outcome.skippedDuplicate :=
  ((C2_dedup_amended w2Cfg (fun _ => .fileNotFound) (fun _ => ⟨true, 0, "m", true⟩)
      w2Recs w2Tally w2Steps rfl).1 1 (by decide) (by decide) (by decide)).1 (by decide)

/-- C3: the consent gate — it never fires outside CSV mode (a single
explicit recipient is exempt even with consent required); with consent
required and a CSV source a row passes exactly when the consent column's
value, stripped and lowercased, is one of `1`, `true`, `yes`, `y`; and in
the pipeline a recipient is skipped with "no consent" exactly when it is
valid, unseen, and the gate fires. -/
theorem C3_consent_gate :
    (∀ (cfg : Config) (row : List (String × String)),
      cfg.csvMode = false → consentSkips cfg row = false) ∧
    (∀ (cfg : Config) (row : List (String × String)),
      cfg.requireConsent = true → cfg.csvMode = true →
      (consentSkips cfg row = false ↔
        pyLower (pyStrip (if row.isEmpty then "" else rowGet row cfg.consentField)) ∈
          (["1", "true", "yes", "y"] : List String))) ∧
    (∀ (cfg : Config) (fs : FileSystem) (o : Oracle) (st : Tally) (r : Record)
       (st2 : Tally) (step : StepResult),
      processOne cfg fs o st r = .ok (st2, step) →
      (step.outcome = .skippedNoConsent ↔
        (is_valid_email r.email = true ∧ st.seen.contains r.email = false ∧
          consentSkips cfg r.row = true))) := by
  refine ⟨?_, ?_, ?_⟩
  · intro cfg row hcsv
    rw [consentSkips, hcsv]
    simp
  · intro cfg row hrc hcsv
    rw [consentSkips, hrc, hcsv]
    simp only [Bool.true_and, Bool.not_eq_false']
    exact List.elem_iff
  · intro cfg fs o st r st2 step h
    exact (processOne_outcome cfg fs o st r st2 step h).2.2.1

def w3Cfg : Config :=
  { csvMode := true, requireConsent := true, consentField := "consent",
    dryRun := true, ratePerMinute := none, saveEmlDir := none,
    templateText := "", templateHtml := "", fromName := "T", fromAddr := "t@e.com",
    subject := "s", replyTo := "", unsubscribe := "", inlinePaths := [], attachPaths := [] }

/-- Witness for C3: a row whose consent value is `" TRUE "` passes the
gate after stripping and lowercasing. -/
theorem C3_consent_gate_witness :
    consentSkips w3Cfg [("consent", " TRUE ")] = false :=
  (C3_consent_gate.2.1 w3Cfg [("consent", " TRUE ")] rfl rfl).mpr (by decide)

/-- C7: a rate-limit pause occurs exactly after a successful live send
with a positive configured delay — never after a skip, never after a
dry-run send — and the delay is `60 / ratePerMinute` when the flag is
positive, `0` (pacing disabled) when the flag is absent or not positive. -/
theorem C7_rate_pause :
    (∀ (cfg : Config) (fs : FileSystem) (o : Oracle) (st : Tally) (r : Record)
       (st2 : Tally) (step : StepResult),
      processOne cfg fs o st r = .ok (st2, step) →
      step.slept = if cfg.dryRun = false ∧ step.outcome = Outcome.sentLive ∧
          0 < rateDelay cfg then some (rateDelay cfg) else none) ∧
    (∀ (cfg : Config) (q : ℚ), cfg.ratePerMinute = some q → 0 < q →
      rateDelay cfg = 60 / q) ∧
    (∀ cfg : Config,
      (cfg.ratePerMinute = none ∨ ∃ q, cfg.ratePerMinute = some q ∧ q ≤ 0) →
      rateDelay cfg = 0) := by
  refine ⟨processOne_slept, ?_, ?_⟩
  · intro cfg q hq hpos
    rw [rateDelay, hq]
    dsimp only
    rw [if_pos hpos]
  · intro cfg hc
    rcases hc with hn | ⟨q, hq, hle⟩
    · rw [rateDelay, hn]
    · rw [rateDelay, hq]
      dsimp only
      rw [if_neg (not_lt.mpr hle)]

def w7Cfg : Config :=
  { csvMode := false, requireConsent := true, consentField := "consent",
    dryRun := false, ratePerMinute := none, saveEmlDir := none,
    templateText := "", templateHtml := "", fromName := "T", fromAddr := "t@e.com",
    subject := "s", replyTo := "", unsubscribe := "", inlinePaths := [], attachPaths := [] }

def w7Rec : Record := ⟨"a@b.com", "", []⟩

def w7Tally : Tally := ⟨1, 1, 0, ["a@b.com"]⟩

def w7Step : StepResult := ⟨"a@b.com", .sentLive, none, none⟩

/-- Witness for C7: a successful live send with pacing disabled (no
`--rate-per-minute`) takes no pause. -/
theorem C7_rate_pause_witness :
    w7Step.slept = if w7Cfg.dryRun = false ∧ w7Step.outcome = Outcome.sentLive ∧
        0 < rateDelay w7Cfg then some (rateDelay w7Cfg) else none :=
  C7_rate_pause.1 w7Cfg (fun _ => .fileNotFound) ⟨true, 0, "m", true⟩ initTally w7Rec
    w7Tally w7Step rfl

/-- C10: the EML write happens during message construction, before
dispatch: whenever a recipient reaches the build step (dry-run send, live
send, or live send failure), the write was attempted exactly when a save
directory is configured — in particular it is attempted (and not rolled
back) when the subsequent live send fails, and also in dry-run mode. -/
theorem C10_eml_before_dispatch :
    ∀ (cfg : Config) (fs : FileSystem) (o : Oracle) (st : Tally) (r : Record)
      (st2 : Tally) (step : StepResult),
      processOne cfg fs o st r = .ok (st2, step) →
      ((step.outcome = .sentDry ∨ step.outcome = .sentLive ∨
          step.outcome = .skippedSendFail) →
        step.emlFile = cfg.saveEmlDir.map (fun _ => (emlFilename r.email o.now, o.writeOk))) ∧
      (cfg.saveEmlDir ≠ none →
        (step.outcome = .sentDry ∨ step.outcome = .sentLive ∨
          step.outcome = .skippedSendFail) →
        step.emlFile ≠ none) := by
  intro cfg fs o st r st2 step h
  have he := processOne_emlFile cfg fs o st r st2 step h
  refine ⟨he.2, ?_⟩
  intro hsd hout
  rw [he.2 hout]
  rcases hs : cfg.saveEmlDir with _ | d
  · exact absurd hs hsd
  · simp

def w10Cfg : Config :=
  { csvMode := false, requireConsent := true, consentField := "consent",
    dryRun := false, ratePerMinute := none, saveEmlDir := some "out",
    templateText := "", templateHtml := "", fromName := "T", fromAddr := "t@e.com",
    subject := "s", replyTo := "", unsubscribe := "", inlinePaths := [], attachPaths := [] }

def w10Rec : Record := ⟨"a@b.com", "", []⟩

def w10O : Oracle := ⟨false, 3, "m", true⟩

def w10Tally : Tally := ⟨1, 0, 1, ["a@b.com"]⟩

def w10Step : StepResult :=
  ⟨"a@b.com", .skippedSendFail, some (emlFilename "a@b.com" 3, true), none⟩

/-- Witness for C10: with a save directory configured, the EML write is
attempted even though the live transport send fails and the recipient is
counted as skipped. -/
theorem C10_eml_before_dispatch_witness :
    w10Step.emlFile =
      w10Cfg.saveEmlDir.map (fun _ => (emlFilename w10Rec.email w10O.now, w10O.writeOk)) :=
  (C10_eml_before_dispatch w10Cfg (fun _ => .fileNotFound) w10O initTally w10Rec
    w10Tally w10Step rfl).1 (Or.inr (Or.inr rfl))

end SendEmail
